import Mathlib

/-!
# go-credhub: the `Set` operation of the CredHub client

A shallow embedding of `client.go` (`Client`, `New`) and `setcredentials.go`
(`Client.Set`), together with the parts of the Go standard library that `Set`
calls (`encoding/json`, `net/http`), described at the level of JSON documents.

Conventions of the embedding:

* a request or response body is the JSON document its bytes spell; a response
  body can also be bytes that are not JSON at all (`Body.invalid`);
* JSON numbers are integers; where `encoding/json` decodes a number into a float64,
  the rounding of an integer to the nearest float64 is computed on integers;
* a Go `interface{}` payload is represented by what `json.Marshal` makes of it:
  either a JSON document or a value that cannot be encoded; a Go map is the object
  with its keys in increasing order, as `json.Marshal` writes it;
* a nil slice and an empty slice are both the empty list (`omitempty` does not
  tell them apart either);
* the transport `*http.Client` is a function from a request and the state of
  the outside world to a response or an error and the next state of the world;
* a method with a pointer receiver returns the receiver as it is left behind.
-/

namespace Credhub

/-! ## JSON documents -/

/-- A JSON document. Object members are kept in document order. -/
inductive JSON where
  | null
  | bool (b : Bool)
  | num (n : Int)
  | str (s : String)
  | arr (xs : List JSON)
  | obj (kvs : List (String × JSON))

mutual
/-- Structural equality test on JSON documents. -/
def JSON.beq : JSON → JSON → Bool
  | .null, .null => true
  | .bool a, .bool b => a == b
  | .num a, .num b => a == b
  | .str a, .str b => a == b
  | .arr a, .arr b => JSON.beqList a b
  | .obj a, .obj b => JSON.beqMembers a b
  | _, _ => false
/-- Structural equality test on lists of JSON documents. -/
def JSON.beqList : List JSON → List JSON → Bool
  | [], [] => true
  | x :: xs, y :: ys => JSON.beq x y && JSON.beqList xs ys
  | _, _ => false
/-- Structural equality test on lists of object members. -/
def JSON.beqMembers : List (String × JSON) → List (String × JSON) → Bool
  | [], [] => true
  | (k, x) :: xs, (l, y) :: ys => k == l && JSON.beq x y && JSON.beqMembers xs ys
  | _, _ => false
end

/-- The name `encoding/json` gives the kind of a document in its error messages. -/
def JSON.kind : JSON → String
  | .null => "null"
  | .bool _ => "bool"
  | .num _ => "number"
  | .str _ => "string"
  | .arr _ => "array"
  | .obj _ => "object"

/-- The first member of an object with the given key; `none` when the document is
not an object or has no such member. -/
def JSON.get (j : JSON) (key : String) : Option JSON :=
  match j with
  | .obj kvs => (kvs.find? (fun kv => kv.1 = key)).map (fun kv => kv.2)
  | _ => none

/-- The keys of an object, in document order. -/
def JSON.keys : JSON → List String
  | .obj kvs => kvs.map (fun kv => kv.1)
  | _ => []

/-- The object without the members that have the given key. -/
def JSON.erase (j : JSON) (key : String) : JSON :=
  match j with
  | .obj kvs => .obj (kvs.filter (fun kv => kv.1 ≠ key))
  | other => other

/-! ## Errors -/

/-- The Go `error` values that occur around `Set`. -/
inductive Error where
  /-- `json.Marshal` met a value it cannot encode. -/
  | unsupportedValue
  /-- `http.NewRequest` could not parse the URL. -/
  | url (msg : String)
  /-- Whatever the transport reports (connection, TLS, authorization, ...). -/
  | transport (msg : String)
  /-- The response body does not start with a complete JSON value. -/
  | malformed
  /-- A JSON value of kind `value` does not fit the Go field `field`
  (`*json.UnmarshalTypeError`). -/
  | unmarshalType (value : String) (field : String)
  /-- The number `n` is beyond the range of float64 (the `*json.UnmarshalTypeError`
  with value "number n" and type float64). -/
  | numberRange (n : Int)
  /-- Status check as made by `Delete`: "expected return code 204, got 404". -/
  | unexpectedStatus (expected actual : Nat)
  deriving DecidableEq, Repr

/-! ## Decoding a document into `interface{}` -/

/-- Order of two strings by their characters, the order in which `json.Marshal` writes
the keys of a map. -/
def lessChars : List Char → List Char → Bool
  | [], [] => false
  | [], _ :: _ => true
  | _ :: _, [] => false
  | c :: cs, d :: ds =>
    if c.toNat < d.toNat then true
    else if c.toNat = d.toNat then lessChars cs ds
    else false

/-- Order of two keys. -/
def keyLess (a b : String) : Bool := lessChars a.data b.data

/-- The map assignment `m[k] = v`, on a map kept as its members in increasing order of
key: a member with the key `k` is replaced. -/
def insertMember (k : String) (v : JSON) : List (String × JSON) → List (String × JSON)
  | [] => [(k, v)]
  | (k', v') :: rest =>
    if keyLess k k' then (k, v) :: (k', v') :: rest
    else if k = k' then (k, v) :: rest
    else (k', v') :: insertMember k v rest

/-- The map the members of an object make, assigned one after the other in document
order: of members with the same key the last one stays. -/
def mapOf (kvs : List (String × JSON)) : List (String × JSON) :=
  kvs.foldl (fun m kv => insertMember kv.1 kv.2 m) []

mutual
/-- The tree of a document with every object made a map and every number `n` replaced
by `num n`. -/
def JSON.decodeTree (num : Int → JSON) : JSON → JSON
  | .null => .null
  | .bool b => .bool b
  | .num n => num n
  | .str s => .str s
  | .arr xs => .arr (JSON.decodeList num xs)
  | .obj kvs => .obj (mapOf (JSON.decodeMembers num kvs))
/-- The trees of the elements of an array. -/
def JSON.decodeList (num : Int → JSON) : List JSON → List JSON
  | [] => []
  | x :: xs => JSON.decodeTree num x :: JSON.decodeList num xs
/-- The trees of the members of an object, in document order. -/
def JSON.decodeMembers (num : Int → JSON) : List (String × JSON) → List (String × JSON)
  | [] => []
  | (k, x) :: rest => (k, JSON.decodeTree num x) :: JSON.decodeMembers num rest
end

/-- The tree of a document with objects as maps (members in increasing order of key,
the last of the members with one key) and the numbers as they are. Two documents are
the same tree, whatever the order of their members, when these are equal. -/
def JSON.canon (j : JSON) : JSON := j.decodeTree JSON.num

/-- The bound of float64: 2^1024. A number that rounds to it or beyond is out of
range. -/
def float64Limit : Nat := 2 ^ 256 * 2 ^ 256 * 2 ^ 256 * 2 ^ 256

/-- Rounding of `n` to a multiple of `2^e` with the quotient rounded to the nearest
integer, and to the even one of two that are equally near. -/
def roundAt (n e : Nat) : Nat :=
  (if 2 ^ e < 2 * (n % 2 ^ e) ∨ (2 * (n % 2 ^ e) = 2 ^ e ∧ (n / 2 ^ e) % 2 = 1)
    then n / 2 ^ e + 1 else n / 2 ^ e) * 2 ^ e

/-- The least `e` from the given one on with `n / 2^e` below `2^53`, so that the
quotient fits the 53 bits of a float64 mantissa. -/
def findExponent : Nat → Nat → Nat → Nat
  | 0, _, e => e
  | fuel + 1, n, e => if n / 2 ^ e < 2 ^ 53 then e else findExponent fuel n (e + 1)

/-- The float64 nearest to the natural number `n` (`strconv.ParseFloat`), which is
again a natural number; `none` when `n` is out of range. Below `2^1024` an exponent
of at most 971 is found, so the fuel is enough. -/
def roundFloat64Nat (n : Nat) : Option Nat :=
  if float64Limit ≤ n then none
  else if roundAt n (findExponent 1024 n 0) < float64Limit
    then some (roundAt n (findExponent 1024 n 0))
    else none

/-- The float64 nearest to the integer `n`; `none` when `n` is out of range. -/
def roundFloat64 (n : Int) : Option Int :=
  match n with
  | .ofNat k => (roundFloat64Nat k).map Int.ofNat
  | .negSucc k => (roundFloat64Nat (k + 1)).map (fun m => - Int.ofNat m)

/-- What a number inside an `interface{}` decodes to: the float64 nearest to it, and
nil when it is out of range. -/
def goNumber (n : Int) : JSON :=
  match roundFloat64 n with
  | some m => .num m
  | none => .null

/-- The Go value a document decodes to inside an `interface{}` (`float64`, `string`,
`bool`, `[]interface{}`, `map[string]interface{}`, nil), as the document that value
encodes to. -/
def JSON.toInterface (j : JSON) : JSON := j.decodeTree goNumber

mutual
/-- The error decoding into `interface{}` saves: that of the first number, in document
order, that is out of the range of float64. -/
def JSON.rangeError : JSON → Option Error
  | .num n =>
    match roundFloat64 n with
    | some _ => none
    | none => some (.numberRange n)
  | .arr xs => JSON.rangeErrorList xs
  | .obj kvs => JSON.rangeErrorMembers kvs
  | _ => none
/-- The first range error among the elements of an array. -/
def JSON.rangeErrorList : List JSON → Option Error
  | [] => none
  | x :: xs =>
    match JSON.rangeError x with
    | some e => some e
    | none => JSON.rangeErrorList xs
/-- The first range error among the members of an object. -/
def JSON.rangeErrorMembers : List (String × JSON) → Option Error
  | [] => none
  | (_, x) :: rest =>
    match JSON.rangeError x with
    | some e => some e
    | none => JSON.rangeErrorMembers rest
end

mutual
/-- Every number of the document is a float64. -/
def JSON.exact : JSON → Bool
  | .num n => decide (roundFloat64 n = some n)
  | .arr xs => JSON.exactList xs
  | .obj kvs => JSON.exactMembers kvs
  | _ => true
/-- Every number of the elements is a float64. -/
def JSON.exactList : List JSON → Bool
  | [] => true
  | x :: xs => JSON.exact x && JSON.exactList xs
/-- Every number of the members is a float64. -/
def JSON.exactMembers : List (String × JSON) → Bool
  | [] => true
  | (_, x) :: rest => JSON.exact x && JSON.exactMembers rest
end

/-! ## Data model -/

/-- A Go `interface{}` payload, as `json.Marshal` sees it. -/
inductive GoValue where
  /-- A value that encodes to the document `j`; the nil interface is `doc null`. -/
  | doc (j : JSON)
  /-- A value `json.Marshal` rejects (a channel, a function, a NaN, ...). -/
  | unsupported

/-- Modelled from the spec: the `Credential` struct (its declaration is not among the
sources). The Go field names are those the tests use; the JSON names are those of the
wire envelope `id, name, type, value, version_created_at`, in that order. `Type_` is
the field `Type` (a string type; the name is reserved here), `Value` is `interface{}`. -/
structure Credential where
  ID : String
  Name : String
  Type_ : String
  Value : GoValue
  Created : String

/-- The zero value `Credential{}`. -/
def Credential.zero : Credential := ⟨"", "", "", .doc .null, ""⟩

/-- Modelled from the spec: the overwrite modes, a closed enumeration (the declaration
of `OverwriteMode` is not among the sources). -/
inductive OverwriteMode where
  | Overwrite
  | NoOverwrite
  | Converge
  deriving DecidableEq, Repr

/-- Modelled from the spec: the string a mode is sent as (the constants are not among
the sources; these are the values of the store's API). -/
def OverwriteMode.wire : OverwriteMode → String
  | .Overwrite => "overwrite"
  | .NoOverwrite => "no-overwrite"
  | .Converge => "converge"

/-- Modelled from the spec: a `Permission` (its declaration is not among the sources,
and the spec does not give its shape), represented by the JSON document it encodes
to. -/
structure Permission where
  doc : JSON

/-! ## HTTP -/

/-- An `*http.Request`, as far as `Set` fills it in. -/
structure Request where
  method : String
  url : String
  header : List (String × String)
  body : JSON

/-- The body of a response: a JSON document, or bytes that are not JSON. -/
inductive Body where
  | invalid (raw : String)
  | doc (j : JSON)

/-- An `*http.Response`, as far as `Set` can look at it. -/
structure Response where
  statusCode : Nat
  body : Body

/-- The injected `*http.Client`: `Do` sends a request in a state `w` of the outside
world (the store, the network, the token cache) and gives a response or an error,
and the state the world is left in. -/
structure HTTPClient (σ : Type) where
  Do : Request → σ → Except Error Response × σ

/-- The `Client` struct of `client.go`. -/
structure Client (σ : Type) where
  url : String
  hc : HTTPClient σ

/-- The constructor `New` of `client.go`. -/
def New {σ : Type} (credhubURL : String) (hc : HTTPClient σ) : Client σ :=
  ⟨credhubURL, hc⟩

/-- `http.NewRequest(method, url, body)`. The method is always "PUT" here, which is a
valid method, so the only failure is that of `url.Parse`, which lies outside the
repository and is a parameter: `parseURL u` is the error it gives for `u`, if any. -/
def NewRequest (parseURL : String → Option Error) (method url : String) (body : JSON) :
    Except Error Request :=
  match parseURL url with
  | some err => .error err
  | none => .ok ⟨method, url, [], body⟩

/-- The method `req.Header.Add(key, value)`. -/
def Request.headerAdd (req : Request) (key value : String) : Request :=
  ⟨req.method, req.url, req.header ++ [(key, value)], req.body⟩

/-! ## encoding/json on the types of `Set` -/

/-- The fields of `Credential`, in declaration order. -/
inductive Field where
  | ID
  | Name
  | Type_
  | Value
  | Created
  deriving DecidableEq, Repr

/-- Modelled from the spec: the JSON name in the tag of a field, as in the wire
envelope of section 6 (the tags themselves are not among the sources). -/
def Field.jsonName : Field → String
  | .ID => "id"
  | .Name => "name"
  | .Type_ => "type"
  | .Value => "value"
  | .Created => "version_created_at"

/-- All fields of `Credential`, in declaration order. -/
def Field.all : List Field := [.ID, .Name, .Type_, .Value, .Created]

/-- The members `json.Marshal` writes for the anonymous struct `reqBody` of `Set`,
given the document `value` the payload of the credential encodes to: the promoted
fields of the embedded `Credential` first, then `mode`, then `additional_permissions`,
which `omitempty` leaves out when the slice has length zero. (`Credential` is taken to
have no marshalling method of its own.) -/
def reqMembers (credential : Credential) (value : JSON) (mode : OverwriteMode)
    (additionalPermissions : List Permission) : List (String × JSON) :=
  [("id", .str credential.ID),
   ("name", .str credential.Name),
   ("type", .str credential.Type_),
   ("value", value),
   ("version_created_at", .str credential.Created),
   ("mode", .str mode.wire)]
  ++ (if additionalPermissions.isEmpty then []
      else [("additional_permissions", .arr (additionalPermissions.map (fun p => p.doc)))])

/-- `json.Marshal(reqBody)`: one JSON object, or an error exactly when the payload of
the credential cannot be encoded. -/
def marshalReqBody (credential : Credential) (mode : OverwriteMode)
    (additionalPermissions : List Permission) : Except Error JSON :=
  match credential.Value with
  | .unsupported => .error .unsupportedValue
  | .doc value => .ok (.obj (reqMembers credential value mode additionalPermissions))

/-- Case folding of one character of a key, as `encoding/json` does when it matches
keys against field names: ASCII letters, and the two characters Unicode folds to
`s` and `k` (U+017F and U+212A). -/
def foldChar (c : Char) : Char :=
  if c = Char.ofNat 0x017F then 's'
  else if c = Char.ofNat 0x212A then 'k'
  else c.toLower

/-- Case-insensitive match of a key against a field name (which is in lower case). -/
def equalFold (name key : String) : Bool :=
  key.data.map foldChar = name.data

/-- The field a key of the object is decoded into: the field with exactly that name,
otherwise the first field whose name matches it case-insensitively. -/
def findField (key : String) : Option Field :=
  match Field.all.find? (fun f => f.jsonName = key) with
  | some f => some f
  | none => Field.all.find? (fun f => equalFold f.jsonName key)

/-- Assignment of a string to one of the string fields. -/
def Credential.setString (c : Credential) (f : Field) (s : String) : Credential :=
  match f with
  | .ID => ⟨s, c.Name, c.Type_, c.Value, c.Created⟩
  | .Name => ⟨c.ID, s, c.Type_, c.Value, c.Created⟩
  | .Type_ => ⟨c.ID, c.Name, s, c.Value, c.Created⟩
  | .Value => c
  | .Created => ⟨c.ID, c.Name, c.Type_, c.Value, s⟩

/-- The decoder keeps the first type error and goes on (`saveError`). -/
def saveError (saved : Option Error) (err : Error) : Option Error :=
  match saved with
  | some e => some e
  | none => some err

/-- Decoding of one member of the object into the credential: an unknown key is
skipped; a string field takes a string, is left alone by `null`, and for any other
document the error is saved and decoding goes on. `value` takes the Go value the
document decodes to inside an `interface{}`, and the first range error in it is saved;
a number out of range that is the whole member leaves the field as it was. -/
def decodeMember (st : Credential × Option Error) (kv : String × JSON) :
    Credential × Option Error :=
  match findField kv.1 with
  | none => st
  | some .Value =>
    match kv.2 with
    | .num n =>
      match roundFloat64 n with
      | some m => (⟨st.1.ID, st.1.Name, st.1.Type_, .doc (.num m), st.1.Created⟩, st.2)
      | none => (st.1, saveError st.2 (.numberRange n))
    | other =>
      (⟨st.1.ID, st.1.Name, st.1.Type_, .doc other.toInterface, st.1.Created⟩,
       match other.rangeError with
       | some e => saveError st.2 e
       | none => st.2)
  | some f =>
    match kv.2 with
    | .null => st
    | .str s => (st.1.setString f s, st.2)
    | other => (st.1, saveError st.2 (.unmarshalType other.kind f.jsonName))

/-- `json.Unmarshal` of a document into `cred`: `null` changes nothing, an object is
decoded member by member, anything else is a type error and changes nothing. -/
def Unmarshal (j : JSON) (cred : Credential) : Credential × Option Error :=
  match j with
  | .null => (cred, none)
  | .obj kvs => kvs.foldl decodeMember (cred, none)
  | other => (cred, some (.unmarshalType other.kind "Credential"))

/-- `json.NewDecoder(body).Decode(&cred)`: bytes that are not JSON give an error
before anything is stored. -/
def Decode (body : Body) (cred : Credential) : Credential × Option Error :=
  match body with
  | .invalid _ => (cred, some .malformed)
  | .doc j => Unmarshal j cred

/-- A member has the shape the envelope asks for: its key names no field, or names
`value`, or names a string field and the member is a JSON string. -/
def memberShape (kv : String × JSON) : Bool :=
  match findField kv.1 with
  | none => true
  | some .Value => true
  | some _ =>
    match kv.2 with
    | .str _ => true
    | _ => false

/-- A JSON object with the shape of a credential envelope: `id`, `name`, `type` and
`version_created_at`, where present, are strings, and `value` is any document. -/
def envelopeShape : JSON → Bool
  | .obj kvs => kvs.all memberShape
  | _ => false

/-- In a member that `value` is decoded from, no number is out of the range of
float64. -/
def memberInRange (kv : String × JSON) : Bool :=
  match findField kv.1 with
  | some .Value => kv.2.rangeError.isNone
  | _ => true

/-- In the members of an object that `value` is decoded from, no number is out of the
range of float64. -/
def valueInRange : JSON → Bool
  | .obj kvs => kvs.all memberInRange
  | _ => true

/-- A member of an envelope fits the credential: its key names no field, or names
`value` and no number of the member is out of the range of float64, or names a string
field and the member is a JSON string. -/
def memberFits (kv : String × JSON) : Bool :=
  match findField kv.1 with
  | none => true
  | some .Value => kv.2.rangeError.isNone
  | some _ =>
    match kv.2 with
    | .str _ => true
    | _ => false

/-- A credential envelope the client can decode: a JSON object in which `id`, `name`,
`type` and `version_created_at`, where present, are strings, and in which the numbers
of `value` are within the range of float64. -/
def isEnvelope : JSON → Bool
  | .obj kvs => kvs.all memberFits
  | _ => false

/-! ## Set -/

/-- What a call of `Set` leaves behind: the two results, the receiver, and the state
of the outside world. -/
structure SetResult (σ : Type) where
  cred : Credential
  err : Option Error
  client : Client σ
  world : σ

/-- The method `Set` of `setcredentials.go`. -/
def Client.Set {σ : Type} (parseURL : String → Option Error) (c : Client σ)
    (credential : Credential) (mode : OverwriteMode)
    (additionalPermissions : List Permission) (w : σ) : SetResult σ :=
  match marshalReqBody credential mode additionalPermissions with
  | .error err => ⟨Credential.zero, some err, c, w⟩
  | .ok buf =>
    match NewRequest parseURL "PUT" (c.url ++ "/api/v1/data") buf with
    | .error err => ⟨Credential.zero, some err, c, w⟩
    | .ok req =>
      match c.hc.Do (req.headerAdd "Content-Type" "application/json") w with
      | (.error err, w') => ⟨Credential.zero, some err, c, w'⟩
      | (.ok resp, w') =>
        let r := Decode resp.body Credential.zero
        ⟨r.1, r.2, c, w'⟩

/-- The request `Set` hands to the transport for a base URL and an encoded body. -/
def setRequest (url : String) (buf : JSON) : Request :=
  ⟨"PUT", url ++ "/api/v1/data", [("Content-Type", "application/json")], buf⟩

/-- A transport that keeps a log of the requests it is given, next to the world of
the transport it wraps. -/
def HTTPClient.recording {σ : Type} (hc : HTTPClient σ) : HTTPClient (σ × List Request) :=
  ⟨fun req wl =>
    match hc.Do req wl.1 with
    | (out, w') => (out, (w', wl.2 ++ [req]))⟩

/-- A transport that answers every request with the same outcome. -/
def HTTPClient.const (out : Except Error Response) : HTTPClient Unit :=
  ⟨fun _ w => (out, w)⟩

/-- A URL parser that accepts everything. -/
def parseAny : String → Option Error := fun _ => none

/-- A URL parser that rejects everything. -/
def parseNone : String → Option Error := fun u => some (.url u)

/-- The client of the examples. -/
def exampleClient (out : Except Error Response) : Client Unit :=
  New "https://credhub.example" (HTTPClient.const out)

/-- The credential the tests propose: a user record under `/sample-set`. -/
def exampleCredential : Credential :=
  ⟨"", "/sample-set", "user",
    .doc (.obj [("username", .str "me"), ("password", .str "super-secret"),
                ("password_hash", .str "somestring")]), ""⟩

/-- The document `exampleCredential` is sent as, with a mode. -/
def exampleBody (mode : OverwriteMode) : JSON :=
  .obj [("id", .str ""), ("name", .str "/sample-set"), ("type", .str "user"),
        ("value", .obj [("username", .str "me"), ("password", .str "super-secret"),
                        ("password_hash", .str "somestring")]),
        ("version_created_at", .str ""), ("mode", .str mode.wire)]

/-! ## The store -/

/-- Modelled from the spec: one version of a named credential as the store keeps it
(section 3): store-assigned `id`, `name`, `type` tag, payload, store-assigned creation
time. The store itself (the remote service, and the mock server of the tests) is not
among the sources. -/
structure Version where
  id : String
  name : String
  type : String
  value : JSON
  created : String

/-- Modelled from the spec: a Typed Value (section 3), a payload under its type tag. -/
structure TypedValue where
  tag : String
  payload : JSON

/-- Modelled from the spec: two Typed Values are equal when they are of the same
variant (equal tags) and their payloads are the same tree, field by field, whatever
the order of the members of their objects (sections 4.2 and 9). -/
def TypedValue.same (a b : TypedValue) : Prop :=
  a.tag = b.tag ∧ a.payload.canon = b.payload.canon

/-- Modelled from the spec: the comparison of Typed Values made for `Converge`, which
decides `TypedValue.same`. -/
def TypedValue.beq (a b : TypedValue) : Bool :=
  a.tag == b.tag && JSON.beq a.payload.canon b.payload.canon

/-- The Typed Value of a version. -/
def Version.typedValue (v : Version) : TypedValue := ⟨v.type, v.value⟩

/-- Modelled from the spec: the state of the store, the versions of all names with the
most recent first (an append-only history), and the store's clock. -/
structure Store where
  versions : List Version
  now : String

/-- Modelled from the spec: the most recent version under a name, if there is one. -/
def Store.latest (s : Store) (name : String) : Option Version :=
  s.versions.find? (fun v => v.name = name)

/-- Modelled from the spec: a new id ("a new version gets a new id"), here a string
longer than every id in the store. -/
def Store.freshId (s : Store) : String :=
  ⟨List.replicate ((s.versions.map (fun v => v.id.length)).sum + 1) 'v'⟩

/-- Modelled from the spec: all versions of a name share one type (section 3). -/
def Store.wellTyped (s : Store) : Prop :=
  ∀ v ∈ s.versions, ∀ w ∈ s.versions, v.name = w.name → v.type = w.type

/-- The store with one more version, which becomes the most recent one. -/
def Store.add (s : Store) (name : String) (proposed : TypedValue) : Version × Store :=
  (⟨s.freshId, name, proposed.tag, proposed.payload, s.now⟩,
   ⟨⟨s.freshId, name, proposed.tag, proposed.payload, s.now⟩ :: s.versions, s.now⟩)

/-- Modelled from the spec: creation of a new version. The type of a name is fixed at
its creation (section 3): under a name that has versions, a version of another type
is refused (`none`), and the store stays as it is. -/
def Store.create (s : Store) (name : String) (proposed : TypedValue) :
    Option (Version × Store) :=
  match s.latest name with
  | some v => if v.type = proposed.tag then some (s.add name proposed) else none
  | none => some (s.add name proposed)

/-- Modelled from the spec: the write-conflict resolver (section 4.2). `Overwrite`
creates a version; `NoOverwrite` returns the most recent version when there is one and
creates one otherwise; `Converge` returns the most recent version when its Typed
Value equals the proposed one and creates a version otherwise. The result is `none`
when a version had to be created and was refused. -/
def Store.resolve (s : Store) (mode : OverwriteMode) (name : String)
    (proposed : TypedValue) : Option (Version × Store) :=
  match mode with
  | .Overwrite => s.create name proposed
  | .NoOverwrite =>
    match s.latest name with
    | some v => some (v, s)
    | none => s.create name proposed
  | .Converge =>
    match s.latest name with
    | some v => if proposed.beq v.typedValue then some (v, s) else s.create name proposed
    | none => s.create name proposed

/-- Modelled from the spec: the wire envelope of a version (section 6). -/
def Version.envelope (v : Version) : JSON :=
  .obj [("id", .str v.id), ("name", .str v.name), ("type", .str v.type),
        ("value", v.value), ("version_created_at", .str v.created)]

/-- The credential the client decodes from the envelope of a version: the payload is
the Go value `encoding/json` makes of it. -/
def Version.credential (v : Version) : Credential :=
  ⟨v.id, v.name, v.type, .doc v.value.toInterface, v.created⟩

/-- The mode a wire string stands for. -/
def OverwriteMode.ofWire (s : String) : Option OverwriteMode :=
  if s = "overwrite" then some .Overwrite
  else if s = "no-overwrite" then some .NoOverwrite
  else if s = "converge" then some .Converge
  else none

/-- The string member of an object with the given key. -/
def JSON.getStr (j : JSON) (key : String) : Option String :=
  match j.get key with
  | some (.str s) => some s
  | _ => none

/-- Modelled from the spec: the store behind a transport, at a base URL. A PUT to
"/api/v1/data" whose body has `name`, `type`, `value` and a known `mode` is resolved
(section 4.2) and answered with status 200 and the envelope of the resulting version,
or with status 400 and an error document when the version is refused; another PUT
there is answered with status 400, any other request with 404, both with an error
document. This transport never fails. -/
def storeTransport (base : String) : HTTPClient Store :=
  ⟨fun req s =>
    if req.method = "PUT" ∧ req.url = base ++ "/api/v1/data" then
      match req.body.getStr "name", req.body.getStr "type", req.body.get "value",
          (req.body.getStr "mode").bind OverwriteMode.ofWire with
      | some name, some type, some value, some mode =>
        match s.resolve mode name ⟨type, value⟩ with
        | some r => (.ok ⟨200, .doc r.1.envelope⟩, r.2)
        | none =>
          (.ok ⟨400, .doc (.obj [("error", .str "the credential type cannot be modified")])⟩,
           s)
      | _, _, _, _ => (.ok ⟨400, .doc (.obj [("error", .str "bad request")])⟩, s)
    else (.ok ⟨404, .doc (.obj [("error", .str "not found")])⟩, s)⟩

/-- The store of the tests: one version under `/sample-set`, with password "old". -/
def exampleStore : Store :=
  ⟨[⟨"6ba7b810-9dad-11d1-80b4-00c04fd430c8", "/sample-set", "user",
      .obj [("username", .str "me"), ("password", .str "old"),
            ("password_hash", .str "somestring")], "2018-01-01T00:00:00Z"⟩],
   "2018-06-01T00:00:00Z"⟩

/-- The version in `exampleStore`. -/
def exampleVersion : Version :=
  ⟨"6ba7b810-9dad-11d1-80b4-00c04fd430c8", "/sample-set", "user",
    .obj [("username", .str "me"), ("password", .str "old"),
          ("password_hash", .str "somestring")], "2018-01-01T00:00:00Z"⟩

/-- The payload of `exampleCredential`. -/
def exampleValue : JSON :=
  .obj [("username", .str "me"), ("password", .str "super-secret"),
        ("password_hash", .str "somestring")]

/-- A store with one version whose payload is the number 2^53 + 1. -/
def numberStore : Store :=
  ⟨[⟨"0f8fad5b-d9cb-469f-a165-70867728950e", "/sample-number", "json",
      .num 9007199254740993, "2018-01-01T00:00:00Z"⟩], "2018-06-01T00:00:00Z"⟩

/-- The version in `numberStore`. -/
def numberVersion : Version :=
  ⟨"0f8fad5b-d9cb-469f-a165-70867728950e", "/sample-number", "json",
    .num 9007199254740993, "2018-01-01T00:00:00Z"⟩

/-- An envelope whose payload is the number 10^400. -/
def hugeEnvelope : JSON :=
  .obj [("id", .str "0f8fad5b-d9cb-469f-a165-70867728950e"), ("name", .str "/sample-number"),
        ("type", .str "json"), ("value", .num (Int.ofNat (10 ^ 200 * 10 ^ 200))),
        ("version_created_at", .str "2018-01-01T00:00:00Z")]

/-! ## Equality of JSON documents is decidable -/

mutual
theorem JSON.eq_of_beq : ∀ (a b : JSON), JSON.beq a b = true → a = b
  | .null, b => by cases b <;> simp [JSON.beq]
  | .bool x, b => by cases b <;> simp [JSON.beq]
  | .num x, b => by cases b <;> simp [JSON.beq]
  | .str x, b => by cases b <;> simp [JSON.beq]
  | .arr xs, b => by
      cases b <;> simp [JSON.beq]
      exact JSON.eq_of_beqList xs _
  | .obj xs, b => by
      cases b <;> simp [JSON.beq]
      exact JSON.eq_of_beqMembers xs _
theorem JSON.eq_of_beqList : ∀ (a b : List JSON), JSON.beqList a b = true → a = b
  | [], b => by cases b <;> simp [JSON.beqList]
  | x :: xs, b => by
      cases b with
      | nil => simp [JSON.beqList]
      | cons y ys =>
        simp only [JSON.beqList, Bool.and_eq_true]
        intro h
        rw [JSON.eq_of_beq x y h.1, JSON.eq_of_beqList xs ys h.2]
theorem JSON.eq_of_beqMembers :
    ∀ (a b : List (String × JSON)), JSON.beqMembers a b = true → a = b
  | [], b => by cases b <;> simp [JSON.beqMembers]
  | (k, x) :: xs, b => by
      cases b with
      | nil => simp [JSON.beqMembers]
      | cons y ys =>
        obtain ⟨l, y⟩ := y
        simp only [JSON.beqMembers, Bool.and_eq_true, beq_iff_eq]
        intro h
        rw [h.1.1, JSON.eq_of_beq x y h.1.2, JSON.eq_of_beqMembers xs ys h.2]
end

mutual
theorem JSON.beq_self : ∀ (a : JSON), JSON.beq a a = true
  | .null => by simp [JSON.beq]
  | .bool x => by simp [JSON.beq]
  | .num x => by simp [JSON.beq]
  | .str x => by simp [JSON.beq]
  | .arr xs => by simp [JSON.beq]; exact JSON.beqList_self xs
  | .obj xs => by simp [JSON.beq]; exact JSON.beqMembers_self xs
theorem JSON.beqList_self : ∀ (a : List JSON), JSON.beqList a a = true
  | [] => by simp [JSON.beqList]
  | x :: xs => by simp [JSON.beqList, JSON.beq_self x, JSON.beqList_self xs]
theorem JSON.beqMembers_self : ∀ (a : List (String × JSON)), JSON.beqMembers a a = true
  | [] => by simp [JSON.beqMembers]
  | (k, x) :: xs => by simp [JSON.beqMembers, JSON.beq_self x, JSON.beqMembers_self xs]
end

instance : DecidableEq JSON := fun a b =>
  if h : JSON.beq a b = true then isTrue (JSON.eq_of_beq a b h)
  else isFalse (fun e => h (e ▸ JSON.beq_self a))

deriving instance DecidableEq for GoValue, Credential, Permission, Request, Body, Response,
  Version, TypedValue, Store

theorem TypedValue.beq_iff (a b : TypedValue) : a.beq b = true ↔ a.same b := by
  simp only [TypedValue.beq, TypedValue.same, Bool.and_eq_true, beq_iff_eq]
  constructor
  · intro h
    exact ⟨h.1, JSON.eq_of_beq _ _ h.2⟩
  · intro h
    exact ⟨h.1, h.2 ▸ JSON.beq_self _⟩

instance (a b : TypedValue) : Decidable (a.same b) :=
  decidable_of_iff _ (TypedValue.beq_iff a b)

/-! ## Numbers that are float64 -/

mutual
theorem JSON.toInterface_of_exact :
    ∀ (j : JSON), j.exact = true → j.decodeTree goNumber = j.decodeTree JSON.num
  | .null, _ => rfl
  | .bool _, _ => rfl
  | .str _, _ => rfl
  | .num n, h => by
      simp only [JSON.exact, decide_eq_true_eq] at h
      simp [JSON.decodeTree, goNumber, h]
  | .arr xs, h => by
      simp only [JSON.exact] at h
      simp only [JSON.decodeTree, JSON.decodeList_of_exact xs h]
  | .obj kvs, h => by
      simp only [JSON.exact] at h
      simp only [JSON.decodeTree, JSON.decodeMembers_of_exact kvs h]
theorem JSON.decodeList_of_exact :
    ∀ (xs : List JSON), JSON.exactList xs = true →
      JSON.decodeList goNumber xs = JSON.decodeList JSON.num xs
  | [], _ => rfl
  | x :: xs, h => by
      simp only [JSON.exactList, Bool.and_eq_true] at h
      simp only [JSON.decodeList, JSON.toInterface_of_exact x h.1,
        JSON.decodeList_of_exact xs h.2]
theorem JSON.decodeMembers_of_exact :
    ∀ (kvs : List (String × JSON)), JSON.exactMembers kvs = true →
      JSON.decodeMembers goNumber kvs = JSON.decodeMembers JSON.num kvs
  | [], _ => rfl
  | (k, x) :: rest, h => by
      simp only [JSON.exactMembers, Bool.and_eq_true] at h
      simp only [JSON.decodeMembers, JSON.toInterface_of_exact x h.1,
        JSON.decodeMembers_of_exact rest h.2]
end

mutual
theorem JSON.rangeError_of_exact : ∀ (j : JSON), j.exact = true → j.rangeError = none
  | .null, _ => rfl
  | .bool _, _ => rfl
  | .str _, _ => rfl
  | .num n, h => by
      simp only [JSON.exact, decide_eq_true_eq] at h
      simp [JSON.rangeError, h]
  | .arr xs, h => by
      simp only [JSON.exact] at h
      simp only [JSON.rangeError, JSON.rangeErrorList_of_exact xs h]
  | .obj kvs, h => by
      simp only [JSON.exact] at h
      simp only [JSON.rangeError, JSON.rangeErrorMembers_of_exact kvs h]
theorem JSON.rangeErrorList_of_exact :
    ∀ (xs : List JSON), JSON.exactList xs = true → JSON.rangeErrorList xs = none
  | [], _ => rfl
  | x :: xs, h => by
      simp only [JSON.exactList, Bool.and_eq_true] at h
      simp only [JSON.rangeErrorList, JSON.rangeError_of_exact x h.1,
        JSON.rangeErrorList_of_exact xs h.2]
theorem JSON.rangeErrorMembers_of_exact :
    ∀ (kvs : List (String × JSON)), JSON.exactMembers kvs = true →
      JSON.rangeErrorMembers kvs = none
  | [], _ => rfl
  | (k, x) :: rest, h => by
      simp only [JSON.exactMembers, Bool.and_eq_true] at h
      simp only [JSON.rangeErrorMembers, JSON.rangeError_of_exact x h.1,
        JSON.rangeErrorMembers_of_exact rest h.2]
end

theorem JSON.toInterface_eq_canon (j : JSON) (h : j.exact = true) :
    j.toInterface = j.canon :=
  JSON.toInterface_of_exact j h

/-! ## Set, path by path -/

theorem Set_of_marshal_error {σ : Type} (parseURL : String → Option Error) (c : Client σ)
    (credential : Credential) (mode : OverwriteMode) (perms : List Permission) (w : σ)
    (err : Error) (h : marshalReqBody credential mode perms = .error err) :
    c.Set parseURL credential mode perms w = ⟨Credential.zero, some err, c, w⟩ := by
  simp [Client.Set, h]

theorem Set_of_request_error {σ : Type} (parseURL : String → Option Error) (c : Client σ)
    (credential : Credential) (mode : OverwriteMode) (perms : List Permission) (w : σ)
    (buf : JSON) (err : Error) (h : marshalReqBody credential mode perms = .ok buf)
    (hu : parseURL (c.url ++ "/api/v1/data") = some err) :
    c.Set parseURL credential mode perms w = ⟨Credential.zero, some err, c, w⟩ := by
  simp [Client.Set, h, NewRequest, hu]

theorem Set_of_transport_error {σ : Type} (parseURL : String → Option Error) (c : Client σ)
    (credential : Credential) (mode : OverwriteMode) (perms : List Permission) (w w' : σ)
    (buf : JSON) (err : Error) (h : marshalReqBody credential mode perms = .ok buf)
    (hu : parseURL (c.url ++ "/api/v1/data") = none)
    (hd : c.hc.Do (setRequest c.url buf) w = (.error err, w')) :
    c.Set parseURL credential mode perms w = ⟨Credential.zero, some err, c, w'⟩ := by
  simp only [setRequest] at hd
  simp [Client.Set, h, NewRequest, hu, Request.headerAdd, hd]

theorem Set_of_response {σ : Type} (parseURL : String → Option Error) (c : Client σ)
    (credential : Credential) (mode : OverwriteMode) (perms : List Permission) (w w' : σ)
    (buf : JSON) (resp : Response) (h : marshalReqBody credential mode perms = .ok buf)
    (hu : parseURL (c.url ++ "/api/v1/data") = none)
    (hd : c.hc.Do (setRequest c.url buf) w = (.ok resp, w')) :
    c.Set parseURL credential mode perms w =
      ⟨(Decode resp.body Credential.zero).1, (Decode resp.body Credential.zero).2, c, w'⟩ := by
  simp only [setRequest] at hd
  simp [Client.Set, h, NewRequest, hu, Request.headerAdd, hd]

theorem recording_Do {σ : Type} (hc : HTTPClient σ) (req : Request) (w : σ)
    (log : List Request) :
    hc.recording.Do req (w, log) = ((hc.Do req w).1, ((hc.Do req w).2, log ++ [req])) := by
  simp [HTTPClient.recording]

/-- The log after `Set` through a recording transport, when the request is built. -/
theorem Set_recording_log {σ : Type} (parseURL : String → Option Error) (c : Client σ)
    (credential : Credential) (mode : OverwriteMode) (perms : List Permission) (w : σ)
    (log : List Request) (buf : JSON) (h : marshalReqBody credential mode perms = .ok buf)
    (hu : parseURL (c.url ++ "/api/v1/data") = none) :
    ((New c.url c.hc.recording).Set parseURL credential mode perms (w, log)).world
      = ((c.hc.Do (setRequest c.url buf) w).2, log ++ [setRequest c.url buf]) := by
  have hd := recording_Do c.hc (setRequest c.url buf) w log
  rcases hout : (c.hc.Do (setRequest c.url buf) w).1 with err | resp
  · rw [hout] at hd
    rw [Set_of_transport_error parseURL (New c.url c.hc.recording) credential mode perms
      (w, log) _ buf err h hu hd]
  · rw [hout] at hd
    rw [Set_of_response parseURL (New c.url c.hc.recording) credential mode perms
      (w, log) _ buf resp h hu hd]

/-! ## The client -/

/-- C10: `New(u, hc)` holds exactly the base URL `u` and the transport `hc`, and `Set`
leaves the client as it found it (same base URL, same transport), whatever the
credential, the mode, the permissions and the outcome of the transport. -/
theorem Set_leaves_client {σ : Type} (u : String) (hc : HTTPClient σ)
    (parseURL : String → Option Error) (c : Client σ) (credential : Credential)
    (mode : OverwriteMode) (perms : List Permission) (w : σ) :
    (New u hc).url = u ∧ (New u hc).hc = hc ∧
    (c.Set parseURL credential mode perms w).client = c ∧
    (c.Set parseURL credential mode perms w).client.url = c.url ∧
    (c.Set parseURL credential mode perms w).client.hc = c.hc := by
  have h : (c.Set parseURL credential mode perms w).client = c := by
    unfold Client.Set
    split
    · rfl
    · split
      · rfl
      · split <;> rfl
  exact ⟨rfl, rfl, h, by rw [h], by rw [h]⟩

/-- C7: when the request is built and the transport fails on it with the error `err`,
`Set` returns the zero credential and exactly `err`, and the transport has been given
the request once: the world is the one that single call left, and a recording
transport has logged one request. -/
theorem Set_transport_failure {σ : Type} (parseURL : String → Option Error) (c : Client σ)
    (credential : Credential) (mode : OverwriteMode) (perms : List Permission) (w w' : σ)
    (log : List Request) (buf : JSON) (err : Error)
    (h : marshalReqBody credential mode perms = .ok buf)
    (hu : parseURL (c.url ++ "/api/v1/data") = none)
    (hd : c.hc.Do (setRequest c.url buf) w = (.error err, w')) :
    (c.Set parseURL credential mode perms w).cred = Credential.zero ∧
    (c.Set parseURL credential mode perms w).err = some err ∧
    (c.Set parseURL credential mode perms w).world = w' ∧
    ((New c.url c.hc.recording).Set parseURL credential mode perms (w, log)).err = some err ∧
    ((New c.url c.hc.recording).Set parseURL credential mode perms (w, log)).world
      = (w', log ++ [setRequest c.url buf]) := by
  have hr := recording_Do c.hc (setRequest c.url buf) w log
  rw [hd] at hr
  rw [Set_of_transport_error parseURL c credential mode perms w w' buf err h hu hd,
    Set_of_transport_error parseURL (New c.url c.hc.recording) credential mode perms
      (w, log) _ buf err h hu hr]
  exact ⟨rfl, rfl, rfl, rfl, rfl⟩

theorem Set_transport_failure_witness :
    marshalReqBody exampleCredential .Overwrite [] = .ok (exampleBody .Overwrite) ∧
    parseAny ((exampleClient (.error (.transport "connection refused"))).url ++ "/api/v1/data")
      = none ∧
    ((exampleClient (.error (.transport "connection refused"))).Set parseAny
        exampleCredential .Overwrite [] ()).cred = Credential.zero ∧
    ((exampleClient (.error (.transport "connection refused"))).Set parseAny
        exampleCredential .Overwrite [] ()).err = some (.transport "connection refused") :=
  ⟨rfl, rfl,
    (Set_transport_failure parseAny (exampleClient (.error (.transport "connection refused")))
      exampleCredential .Overwrite [] () () [] (exampleBody .Overwrite)
      (.transport "connection refused") rfl rfl rfl).1,
    (Set_transport_failure parseAny (exampleClient (.error (.transport "connection refused")))
      exampleCredential .Overwrite [] () () [] (exampleBody .Overwrite)
      (.transport "connection refused") rfl rfl rfl).2.1⟩

/-- C9: through a recording transport, `Set` logs at most one request on every path,
none when the body does not serialise or the request cannot be built, and exactly one
when it can: a PUT to the base URL followed by "/api/v1/data", carrying the encoded
body, after which the world is the one that single call left. -/
theorem Set_one_round_trip {σ : Type} (parseURL : String → Option Error) (c : Client σ)
    (credential : Credential) (mode : OverwriteMode) (perms : List Permission) (w : σ)
    (log : List Request) :
    (((New c.url c.hc.recording).Set parseURL credential mode perms (w, log)).world.2.length
      ≤ log.length + 1) ∧
    (∀ buf, marshalReqBody credential mode perms = .ok buf →
      parseURL (c.url ++ "/api/v1/data") = none →
      ∃ req, ((New c.url c.hc.recording).Set parseURL credential mode perms (w, log)).world
          = ((c.hc.Do req w).2, log ++ [req]) ∧
        (c.Set parseURL credential mode perms w).world = (c.hc.Do req w).2 ∧
        req.method = "PUT" ∧ req.url = c.url ++ "/api/v1/data" ∧ req.body = buf) ∧
    (∀ err, marshalReqBody credential mode perms = .error err →
      ((New c.url c.hc.recording).Set parseURL credential mode perms (w, log)).world
        = (w, log)) ∧
    (∀ buf err, marshalReqBody credential mode perms = .ok buf →
      parseURL (c.url ++ "/api/v1/data") = some err →
      ((New c.url c.hc.recording).Set parseURL credential mode perms (w, log)).world
        = (w, log)) := by
  have sent : ∀ buf, marshalReqBody credential mode perms = .ok buf →
      parseURL (c.url ++ "/api/v1/data") = none →
      ∃ req, ((New c.url c.hc.recording).Set parseURL credential mode perms (w, log)).world
          = ((c.hc.Do req w).2, log ++ [req]) ∧
        (c.Set parseURL credential mode perms w).world = (c.hc.Do req w).2 ∧
        req.method = "PUT" ∧ req.url = c.url ++ "/api/v1/data" ∧ req.body = buf := by
    intro buf h hu
    refine ⟨setRequest c.url buf,
      Set_recording_log parseURL c credential mode perms w log buf h hu, ?_, rfl, rfl, rfl⟩
    rcases hout : c.hc.Do (setRequest c.url buf) w with ⟨out, w'⟩
    cases out with
    | error err =>
      rw [Set_of_transport_error parseURL c credential mode perms w w' buf err h hu hout]
    | ok resp =>
      rw [Set_of_response parseURL c credential mode perms w w' buf resp h hu hout]
  have nomarshal : ∀ err, marshalReqBody credential mode perms = .error err →
      ((New c.url c.hc.recording).Set parseURL credential mode perms (w, log)).world
        = (w, log) := by
    intro err h
    rw [Set_of_marshal_error parseURL _ credential mode perms (w, log) err h]
  have nourl : ∀ buf err, marshalReqBody credential mode perms = .ok buf →
      parseURL (c.url ++ "/api/v1/data") = some err →
      ((New c.url c.hc.recording).Set parseURL credential mode perms (w, log)).world
        = (w, log) := by
    intro buf err h hu
    exact congrArg SetResult.world
      (Set_of_request_error parseURL (New c.url c.hc.recording) credential mode perms
        (w, log) buf err h hu)
  refine ⟨?_, sent, nomarshal, nourl⟩
  rcases hm : marshalReqBody credential mode perms with err | buf
  · rw [nomarshal err hm]; simp
  · rcases hp : parseURL (c.url ++ "/api/v1/data") with _ | err
    · obtain ⟨req, hreq, -⟩ := sent buf hm hp
      rw [hreq]; simp
    · rw [nourl buf err hm hp]; simp

theorem Set_one_round_trip_witness :
    (marshalReqBody exampleCredential .Converge [] = .ok (exampleBody .Converge) ∧
    parseAny ((exampleClient (.error (.transport "timeout"))).url ++ "/api/v1/data") = none ∧
    ∃ req, ((New (exampleClient (.error (.transport "timeout"))).url
          (exampleClient (.error (.transport "timeout"))).hc.recording).Set parseAny
          exampleCredential .Converge [] ((), [])).world
          = (((exampleClient (.error (.transport "timeout"))).hc.Do req ()).2, [] ++ [req]) ∧
        ((exampleClient (.error (.transport "timeout"))).Set parseAny
          exampleCredential .Converge [] ()).world
          = ((exampleClient (.error (.transport "timeout"))).hc.Do req ()).2 ∧
        req.method = "PUT" ∧
        req.url = (exampleClient (.error (.transport "timeout"))).url ++ "/api/v1/data" ∧
        req.body = exampleBody .Converge) ∧
    (marshalReqBody ⟨"", "/sample-set", "user", .unsupported, ""⟩ .Converge []
        = .error .unsupportedValue ∧
      ((New (exampleClient (.error (.transport "timeout"))).url
          (exampleClient (.error (.transport "timeout"))).hc.recording).Set parseAny
          ⟨"", "/sample-set", "user", .unsupported, ""⟩ .Converge [] ((), [])).world
        = ((), [])) ∧
    (parseNone ((exampleClient (.error (.transport "timeout"))).url ++ "/api/v1/data")
        = some (.url "https://credhub.example/api/v1/data") ∧
      ((New (exampleClient (.error (.transport "timeout"))).url
          (exampleClient (.error (.transport "timeout"))).hc.recording).Set parseNone
          exampleCredential .Converge [] ((), [])).world
        = ((), [])) :=
  ⟨⟨rfl, rfl,
    (Set_one_round_trip parseAny (exampleClient (.error (.transport "timeout")))
      exampleCredential .Converge [] () []).2.1 (exampleBody .Converge) rfl rfl⟩,
   ⟨rfl,
    (Set_one_round_trip parseAny (exampleClient (.error (.transport "timeout")))
      ⟨"", "/sample-set", "user", .unsupported, ""⟩ .Converge [] () []).2.2.1
      .unsupportedValue rfl⟩,
   ⟨rfl,
    (Set_one_round_trip parseNone (exampleClient (.error (.transport "timeout")))
      exampleCredential .Converge [] () []).2.2.2 (exampleBody .Converge)
      (.url "https://credhub.example/api/v1/data") rfl rfl⟩⟩

/-! ## Decoding -/

theorem findField_id : findField "id" = some .ID := by decide

theorem findField_name : findField "name" = some .Name := by decide

theorem findField_type : findField "type" = some .Type_ := by decide

theorem findField_value : findField "value" = some .Value := by decide

theorem findField_created : findField "version_created_at" = some .Created := by decide

theorem findField_mode : findField "mode" = none := by decide

theorem findField_permissions : findField "additional_permissions" = none := by decide

theorem decodeMember_fits (c : Credential) (kv : String × JSON) (h : memberFits kv = true) :
    (decodeMember (c, none) kv).2 = none := by
  unfold memberFits at h
  unfold decodeMember
  cases hf : findField kv.1 with
  | none => simp
  | some f =>
    rw [hf] at h
    cases f <;> cases hv : kv.2 <;> simp_all [JSON.rangeError]
    all_goals
      split <;> simp_all

theorem foldl_decodeMember_fits (kvs : List (String × JSON)) (c : Credential)
    (h : kvs.all memberFits = true) : (kvs.foldl decodeMember (c, none)).2 = none := by
  induction kvs generalizing c with
  | nil => rfl
  | cons kv rest ih =>
    rw [List.all_cons, Bool.and_eq_true] at h
    rw [List.foldl_cons]
    have h1 := decodeMember_fits c kv h.1
    have h2 : decodeMember (c, none) kv = ((decodeMember (c, none) kv).1, none) :=
      Prod.ext rfl h1
    rw [h2]
    exact ih _ h.2

theorem Unmarshal_envelope_ok (j : JSON) (c : Credential) (h : isEnvelope j = true) :
    (Unmarshal j c).2 = none := by
  cases j with
  | obj kvs => exact foldl_decodeMember_fits kvs c h
  | null => simp [isEnvelope] at h
  | bool b => simp [isEnvelope] at h
  | num n => simp [isEnvelope] at h
  | str s => simp [isEnvelope] at h
  | arr xs => simp [isEnvelope] at h

theorem memberFits_eq (kv : String × JSON) :
    memberFits kv = (memberShape kv && memberInRange kv) := by
  unfold memberFits memberShape memberInRange
  cases hf : findField kv.1 with
  | none => rfl
  | some f => cases f <;> cases kv.2 <;> simp

/-- The envelopes the client can decode are the objects with the shape of an envelope
in which no number of `value` is out of the range of float64. -/
theorem isEnvelope_iff (j : JSON) :
    isEnvelope j = true ↔ envelopeShape j = true ∧ valueInRange j = true := by
  cases j with
  | obj kvs =>
    simp only [isEnvelope, envelopeShape, valueInRange, List.all_eq_true]
    constructor
    · intro h
      constructor
      · intro kv hk
        have := h kv hk
        rw [memberFits_eq, Bool.and_eq_true] at this
        exact this.1
      · intro kv hk
        have := h kv hk
        rw [memberFits_eq, Bool.and_eq_true] at this
        exact this.2
    · intro h kv hk
      rw [memberFits_eq, Bool.and_eq_true]
      exact ⟨h.1 kv hk, h.2 kv hk⟩
  | null => simp [isEnvelope, envelopeShape]
  | bool b => simp [isEnvelope, envelopeShape]
  | num n => simp [isEnvelope, envelopeShape]
  | str x => simp [isEnvelope, envelopeShape]
  | arr xs => simp [isEnvelope, envelopeShape]

/-- How `value` is decoded, on examples: 2^53 + 1 becomes 2^53; of two members with one
key the last stays; the members of an object come out by key; a number out of range
inside an array becomes nil and its error is returned. -/
theorem Unmarshal_value_examples :
    Unmarshal (.obj [("value", .num 9007199254740993)]) Credential.zero
      = (⟨"", "", "", .doc (.num 9007199254740992), ""⟩, none) ∧
    Unmarshal (.obj [("value", .obj [("a", .num 1), ("a", .num 2)])]) Credential.zero
      = (⟨"", "", "", .doc (.obj [("a", .num 2)]), ""⟩, none) ∧
    Unmarshal (.obj [("value", .obj [("b", .num 1), ("a", .num 2)])]) Credential.zero
      = (⟨"", "", "", .doc (.obj [("a", .num 2), ("b", .num 1)]), ""⟩, none) ∧
    Unmarshal (.obj [("value", .arr [.num 1, .num (Int.ofNat (10 ^ 200 * 10 ^ 200))])])
        Credential.zero
      = (⟨"", "", "", .doc (.arr [.num 1, .null]), ""⟩,
         some (.numberRange (Int.ofNat (10 ^ 200 * 10 ^ 200)))) := by
  refine ⟨by decide, by decide, by decide, by decide⟩

/-- Counterexample to C5 as stated: the body is a JSON object with the shape of a
credential envelope, with strings for `id`, `name`, `type`, `version_created_at` and
the number 10^400 for `value`; `Set` returns the error `encoding/json` gives for a
number out of the range of float64, not a nil error. -/
theorem Set_error_on_envelope :
    envelopeShape hugeEnvelope = true ∧
    ((exampleClient (.ok ⟨200, .doc hugeEnvelope⟩)).Set parseAny exampleCredential
        .NoOverwrite [] ()).err = some (.numberRange (Int.ofNat (10 ^ 200 * 10 ^ 200))) ∧
    ((exampleClient (.ok ⟨200, .doc hugeEnvelope⟩)).Set parseAny exampleCredential
        .NoOverwrite [] ()).err ≠ none := by
  refine ⟨by decide, by decide, by decide⟩

/-- C5, amended: when the transport answers with a response whose body is a credential
envelope `j` whose numbers are within the range of float64, `Set` returns, with a nil
error, the credential `encoding/json` decodes `j` to (the numbers of the value as
float64, its objects as maps): the result is given by `j` alone, whatever the client,
the proposed credential, the mode, the permissions, the status code and the world
are. -/
theorem Set_returns_decoded_body {σ : Type} (parseURL : String → Option Error)
    (c : Client σ) (credential : Credential) (mode : OverwriteMode)
    (perms : List Permission) (w w' : σ) (buf : JSON) (resp : Response) (j : JSON)
    (h : marshalReqBody credential mode perms = .ok buf)
    (hu : parseURL (c.url ++ "/api/v1/data") = none)
    (hd : c.hc.Do (setRequest c.url buf) w = (.ok resp, w'))
    (hb : resp.body = .doc j) (hj : isEnvelope j = true) :
    (c.Set parseURL credential mode perms w).cred = (Unmarshal j Credential.zero).1 ∧
    (c.Set parseURL credential mode perms w).err = none := by
  rw [Set_of_response parseURL c credential mode perms w w' buf resp h hu hd, hb]
  exact ⟨rfl, Unmarshal_envelope_ok j Credential.zero hj⟩

theorem Set_returns_decoded_body_witness :
    marshalReqBody exampleCredential .NoOverwrite [] = .ok (exampleBody .NoOverwrite) ∧
    isEnvelope (.obj [("id", .str "6ba7b810"), ("name", .str "/sample-set"),
      ("value", .obj [("password", .str "old")])]) = true ∧
    ((exampleClient (.ok ⟨200, .doc (.obj [("id", .str "6ba7b810"),
        ("name", .str "/sample-set"), ("value", .obj [("password", .str "old")])])⟩)).Set
      parseAny exampleCredential .NoOverwrite [] ()).cred
      = (Unmarshal (.obj [("id", .str "6ba7b810"), ("name", .str "/sample-set"),
          ("value", .obj [("password", .str "old")])]) Credential.zero).1 ∧
    ((exampleClient (.ok ⟨200, .doc (.obj [("id", .str "6ba7b810"),
        ("name", .str "/sample-set"), ("value", .obj [("password", .str "old")])])⟩)).Set
      parseAny exampleCredential .NoOverwrite [] ()).err = none :=
  ⟨rfl, by decide,
    Set_returns_decoded_body parseAny
      (exampleClient (.ok ⟨200, .doc (.obj [("id", .str "6ba7b810"),
        ("name", .str "/sample-set"), ("value", .obj [("password", .str "old")])])⟩))
      exampleCredential .NoOverwrite [] () () (exampleBody .NoOverwrite)
      ⟨200, .doc (.obj [("id", .str "6ba7b810"),
        ("name", .str "/sample-set"), ("value", .obj [("password", .str "old")])])⟩
      (.obj [("id", .str "6ba7b810"), ("name", .str "/sample-set"),
        ("value", .obj [("password", .str "old")])])
      rfl rfl rfl rfl (by decide)⟩

/-! ## The request body -/

theorem marshalReqBody_of_doc (credential : Credential) (value : JSON)
    (mode : OverwriteMode) (perms : List Permission) (hv : credential.Value = .doc value) :
    marshalReqBody credential mode perms = .ok (.obj (reqMembers credential value mode perms)) := by
  simp [marshalReqBody, hv]

theorem wire_injective (mode mode' : OverwriteMode) (h : mode.wire = mode'.wire) :
    mode = mode' := by
  cases mode <;> cases mode' <;> first | rfl | (exact absurd h (by decide))

/-- C4: for a credential whose payload encodes (to `value`), the body `Set` sends is
one JSON object; it has the credential's fields `id`, `name`, `type`, `value`,
`version_created_at` with the credential's own values and exactly one `mode` member,
which is the mode passed in; the bodies sent for two modes differ in `mode` when the
modes differ, and are the same once `mode` is taken out. -/
theorem Set_body_carries_mode {σ : Type} (parseURL : String → Option Error) (c : Client σ)
    (credential : Credential) (mode mode' : OverwriteMode) (perms : List Permission)
    (w : σ) (log : List Request) (value : JSON)
    (hv : credential.Value = .doc value)
    (hu : parseURL (c.url ++ "/api/v1/data") = none) :
    ∃ kvs kvs' : List (String × JSON),
      ((New c.url c.hc.recording).Set parseURL credential mode perms (w, log)).world.2
        = log ++ [setRequest c.url (.obj kvs)] ∧
      ((New c.url c.hc.recording).Set parseURL credential mode' perms (w, log)).world.2
        = log ++ [setRequest c.url (.obj kvs')] ∧
      (JSON.obj kvs).get "id" = some (.str credential.ID) ∧
      (JSON.obj kvs).get "name" = some (.str credential.Name) ∧
      (JSON.obj kvs).get "type" = some (.str credential.Type_) ∧
      (JSON.obj kvs).get "value" = some value ∧
      (JSON.obj kvs).get "version_created_at" = some (.str credential.Created) ∧
      (JSON.obj kvs).get "mode" = some (.str mode.wire) ∧
      (JSON.obj kvs').get "mode" = some (.str mode'.wire) ∧
      (JSON.obj kvs).keys.count "mode" = 1 ∧
      ((JSON.obj kvs).get "mode" = (JSON.obj kvs').get "mode" ↔ mode = mode') ∧
      (JSON.obj kvs).erase "mode" = (JSON.obj kvs').erase "mode" := by
  refine ⟨reqMembers credential value mode perms, reqMembers credential value mode' perms,
    ?_, ?_, ?_, ?_, ?_, ?_, ?_, ?_, ?_, ?_, ?_, ?_⟩
  · rw [Set_recording_log parseURL c credential mode perms w log _
      (marshalReqBody_of_doc credential value mode perms hv) hu]
  · rw [Set_recording_log parseURL c credential mode' perms w log _
      (marshalReqBody_of_doc credential value mode' perms hv) hu]
  · simp [JSON.get, reqMembers]
  · simp [JSON.get, reqMembers]
  · simp [JSON.get, reqMembers]
  · simp [JSON.get, reqMembers]
  · simp [JSON.get, reqMembers]
  · simp [JSON.get, reqMembers]
  · simp [JSON.get, reqMembers]
  · cases perms <;> simp [JSON.keys, reqMembers]
  · constructor
    · intro heq
      apply wire_injective
      simpa [JSON.get, reqMembers] using heq
    · intro heq
      rw [heq]
  · cases perms <;> simp [JSON.erase, reqMembers]

theorem Set_body_carries_mode_witness :
    exampleCredential.Value = .doc (.obj [("username", .str "me"),
      ("password", .str "super-secret"), ("password_hash", .str "somestring")]) ∧
    parseAny ((exampleClient (.error (.transport "down"))).url ++ "/api/v1/data") = none ∧
    ∃ kvs kvs' : List (String × JSON),
      ((New (exampleClient (.error (.transport "down"))).url
          (exampleClient (.error (.transport "down"))).hc.recording).Set parseAny
          exampleCredential .NoOverwrite [] ((), [])).world.2
        = [] ++ [setRequest (exampleClient (.error (.transport "down"))).url (.obj kvs)] ∧
      ((New (exampleClient (.error (.transport "down"))).url
          (exampleClient (.error (.transport "down"))).hc.recording).Set parseAny
          exampleCredential .Converge [] ((), [])).world.2
        = [] ++ [setRequest (exampleClient (.error (.transport "down"))).url (.obj kvs')] ∧
      (JSON.obj kvs).get "id" = some (.str exampleCredential.ID) ∧
      (JSON.obj kvs).get "name" = some (.str exampleCredential.Name) ∧
      (JSON.obj kvs).get "type" = some (.str exampleCredential.Type_) ∧
      (JSON.obj kvs).get "value" = some (.obj [("username", .str "me"),
        ("password", .str "super-secret"), ("password_hash", .str "somestring")]) ∧
      (JSON.obj kvs).get "version_created_at" = some (.str exampleCredential.Created) ∧
      (JSON.obj kvs).get "mode" = some (.str OverwriteMode.NoOverwrite.wire) ∧
      (JSON.obj kvs').get "mode" = some (.str OverwriteMode.Converge.wire) ∧
      (JSON.obj kvs).keys.count "mode" = 1 ∧
      ((JSON.obj kvs).get "mode" = (JSON.obj kvs').get "mode"
        ↔ OverwriteMode.NoOverwrite = OverwriteMode.Converge) ∧
      (JSON.obj kvs).erase "mode" = (JSON.obj kvs').erase "mode" :=
  ⟨rfl, rfl,
    Set_body_carries_mode parseAny (exampleClient (.error (.transport "down")))
      exampleCredential .NoOverwrite .Converge [] () []
      (.obj [("username", .str "me"), ("password", .str "super-secret"),
        ("password_hash", .str "somestring")]) rfl rfl⟩

/-- C8: for a credential whose payload encodes, the body `Set` sends has no
`additional_permissions` member at all when the permission list is empty (a nil slice
included), and when it is not empty its `additional_permissions` member is the array
of the given permissions, in the given order, and it occurs once. -/
theorem Set_body_permissions {σ : Type} (parseURL : String → Option Error) (c : Client σ)
    (credential : Credential) (mode : OverwriteMode) (perms : List Permission)
    (w : σ) (log : List Request) (value : JSON)
    (hv : credential.Value = .doc value)
    (hu : parseURL (c.url ++ "/api/v1/data") = none) :
    ∃ body : JSON,
      ((New c.url c.hc.recording).Set parseURL credential mode perms (w, log)).world.2
        = log ++ [setRequest c.url body] ∧
      body.get "additional_permissions"
        = (if perms = [] then none else some (.arr (perms.map (fun p => p.doc)))) ∧
      body.keys.count "additional_permissions" = (if perms = [] then 0 else 1) := by
  refine ⟨.obj (reqMembers credential value mode perms), ?_, ?_, ?_⟩
  · rw [Set_recording_log parseURL c credential mode perms w log _
      (marshalReqBody_of_doc credential value mode perms hv) hu]
  · cases perms <;> simp [JSON.get, reqMembers]
  · cases perms <;> simp [JSON.keys, reqMembers]

theorem Set_body_permissions_witness :
    exampleCredential.Value = .doc (.obj [("username", .str "me"),
      ("password", .str "super-secret"), ("password_hash", .str "somestring")]) ∧
    parseAny ((exampleClient (.error (.transport "down"))).url ++ "/api/v1/data") = none ∧
    ∃ body : JSON,
      ((New (exampleClient (.error (.transport "down"))).url
          (exampleClient (.error (.transport "down"))).hc.recording).Set parseAny
          exampleCredential .Overwrite [⟨.str "first"⟩, ⟨.str "second"⟩] ((), [])).world.2
        = [] ++ [setRequest (exampleClient (.error (.transport "down"))).url body] ∧
      body.get "additional_permissions"
        = (if ([⟨.str "first"⟩, ⟨.str "second"⟩] : List Permission) = [] then none
           else some (.arr (([⟨.str "first"⟩, ⟨.str "second"⟩] : List Permission).map
              (fun p => p.doc)))) ∧
      body.keys.count "additional_permissions"
        = (if ([⟨.str "first"⟩, ⟨.str "second"⟩] : List Permission) = [] then 0 else 1) :=
  ⟨rfl, rfl,
    Set_body_permissions parseAny (exampleClient (.error (.transport "down")))
      exampleCredential .Overwrite [⟨.str "first"⟩, ⟨.str "second"⟩] () []
      (.obj [("username", .str "me"), ("password", .str "super-secret"),
        ("password_hash", .str "somestring")]) rfl rfl⟩

/-! ## The status code and the decoding error -/

/-- The result of `Set` does not look at the status code: two responses with the same
body give the same results. -/
theorem Set_status_irrelevant {σ : Type} (parseURL : String → Option Error)
    (c c' : Client σ) (credential : Credential) (mode : OverwriteMode)
    (perms : List Permission) (w w' : σ) (buf : JSON) (status status' : Nat) (body : Body)
    (h : marshalReqBody credential mode perms = .ok buf)
    (hu : parseURL (c.url ++ "/api/v1/data") = none)
    (hu' : parseURL (c'.url ++ "/api/v1/data") = none)
    (hd : c.hc.Do (setRequest c.url buf) w = (.ok ⟨status, body⟩, w'))
    (hd' : c'.hc.Do (setRequest c'.url buf) w = (.ok ⟨status', body⟩, w')) :
    (c.Set parseURL credential mode perms w).cred
      = (c'.Set parseURL credential mode perms w).cred ∧
    (c.Set parseURL credential mode perms w).err
      = (c'.Set parseURL credential mode perms w).err := by
  rw [Set_of_response parseURL c credential mode perms w w' buf _ h hu hd,
    Set_of_response parseURL c' credential mode perms w w' buf _ h hu' hd']
  exact ⟨rfl, rfl⟩

/-- C1: on a response with status 404 whose body is the store's error document, `Set`
returns the zero credential with a nil error; on a response with status 500 and the
envelope of a credential as body, it returns that credential with a nil error. In
neither case is there an error carrying an expected and an actual status code. -/
theorem Set_ignores_status :
    ((exampleClient (.ok ⟨404, .doc (.obj [("error", .str "not found")])⟩)).Set
        parseAny exampleCredential .Overwrite [] ()).err = none ∧
    ((exampleClient (.ok ⟨404, .doc (.obj [("error", .str "not found")])⟩)).Set
        parseAny exampleCredential .Overwrite [] ()).cred = Credential.zero ∧
    ((exampleClient (.ok ⟨500, .doc (.obj [("id", .str "1234"),
        ("name", .str "/by-id")])⟩)).Set
        parseAny exampleCredential .Overwrite [] ()).err = none ∧
    ((exampleClient (.ok ⟨500, .doc (.obj [("id", .str "1234"),
        ("name", .str "/by-id")])⟩)).Set
        parseAny exampleCredential .Overwrite [] ()).cred
      = ⟨"1234", "/by-id", "", .doc .null, ""⟩ ∧
    (∀ expected actual : Nat,
      ((exampleClient (.ok ⟨404, .doc (.obj [("error", .str "not found")])⟩)).Set
        parseAny exampleCredential .Overwrite [] ()).err
        ≠ some (.unexpectedStatus expected actual)) := by
  refine ⟨by decide, by decide, by decide, by decide, ?_⟩
  intro expected actual
  have h : ((exampleClient (.ok ⟨404, .doc (.obj [("error", .str "not found")])⟩)).Set
        parseAny exampleCredential .Overwrite [] ()).err = none := by decide
  rw [h]
  exact Option.noConfusion

/-- Where `Set` can return an error together with a credential that is not the zero
one: only after the transport answered with a body that is a JSON object. -/
theorem Set_error_with_credential {σ : Type} (parseURL : String → Option Error)
    (c : Client σ) (credential : Credential) (mode : OverwriteMode)
    (perms : List Permission) (w : σ)
    (he : (c.Set parseURL credential mode perms w).err ≠ none)
    (hc : (c.Set parseURL credential mode perms w).cred ≠ Credential.zero) :
    ∃ buf resp w' kvs, marshalReqBody credential mode perms = .ok buf ∧
      c.hc.Do (setRequest c.url buf) w = (.ok resp, w') ∧ resp.body = .doc (.obj kvs) := by
  rcases hm : marshalReqBody credential mode perms with err | buf
  · rw [Set_of_marshal_error parseURL c credential mode perms w err hm] at hc
    exact absurd rfl hc
  · rcases hp : parseURL (c.url ++ "/api/v1/data") with _ | err
    · rcases hd : c.hc.Do (setRequest c.url buf) w with ⟨out, w'⟩
      cases out with
      | error err =>
        rw [Set_of_transport_error parseURL c credential mode perms w w' buf err hm hp hd]
          at hc
        exact absurd rfl hc
      | ok resp =>
        rw [Set_of_response parseURL c credential mode perms w w' buf resp hm hp hd] at hc he
        refine ⟨buf, resp, w', ?_⟩
        cases hb : resp.body with
        | invalid raw => rw [hb] at hc; exact absurd rfl hc
        | doc j =>
          rw [hb] at hc he
          cases j with
          | obj kvs => exact ⟨kvs, rfl, hd, rfl⟩
          | null => exact absurd rfl hc
          | bool b => exact absurd rfl hc
          | num n => exact absurd rfl hc
          | str s => exact absurd rfl hc
          | arr xs => exact absurd rfl hc
    · rw [Set_of_request_error parseURL c credential mode perms w buf err hm hp] at hc
      exact absurd rfl hc

/-- C6: on a response whose body is `{"name": "/sample-set", "id": 5}`, decoding fails
(a number does not fit the string field `id`) and `Set` returns the error together
with a credential that is not the zero credential: its name is filled in. -/
theorem Set_returns_filled_credential_with_error :
    ((exampleClient (.ok ⟨200, .doc (.obj [("name", .str "/sample-set"),
        ("id", .num 5)])⟩)).Set
        parseAny exampleCredential .Overwrite [] ()).err
      = some (.unmarshalType "number" "id") ∧
    ((exampleClient (.ok ⟨200, .doc (.obj [("name", .str "/sample-set"),
        ("id", .num 5)])⟩)).Set
        parseAny exampleCredential .Overwrite [] ()).cred
      = ⟨"", "/sample-set", "", .doc .null, ""⟩ ∧
    ((exampleClient (.ok ⟨200, .doc (.obj [("name", .str "/sample-set"),
        ("id", .num 5)])⟩)).Set
        parseAny exampleCredential .Overwrite [] ()).cred ≠ Credential.zero := by
  refine ⟨by decide, by decide, by decide⟩

/-! ## Set against the store -/

theorem ofWire_wire (mode : OverwriteMode) : OverwriteMode.ofWire mode.wire = some mode := by
  cases mode <;> decide

theorem Unmarshal_envelope (v : Version) :
    Unmarshal v.envelope Credential.zero = (v.credential, v.value.rangeError) := by
  obtain ⟨i, n, t, val, cr⟩ := v
  cases val with
  | num k =>
    cases hk : roundFloat64 k <;>
      simp [Unmarshal, Version.envelope, Version.credential, decodeMember, findField_id,
        findField_name, findField_type, findField_value, findField_created,
        Credential.setString, Credential.zero, JSON.toInterface, JSON.decodeTree, goNumber,
        JSON.rangeError, saveError, hk]
  | null =>
    simp [Unmarshal, Version.envelope, Version.credential, decodeMember, findField_id,
      findField_name, findField_type, findField_value, findField_created,
      Credential.setString, Credential.zero, JSON.rangeError]
  | bool b =>
    simp [Unmarshal, Version.envelope, Version.credential, decodeMember, findField_id,
      findField_name, findField_type, findField_value, findField_created,
      Credential.setString, Credential.zero, JSON.rangeError]
  | str x =>
    simp [Unmarshal, Version.envelope, Version.credential, decodeMember, findField_id,
      findField_name, findField_type, findField_value, findField_created,
      Credential.setString, Credential.zero, JSON.rangeError]
  | arr xs =>
    cases hx : (JSON.arr xs).rangeError <;>
      simp [Unmarshal, Version.envelope, Version.credential, decodeMember, findField_id,
        findField_name, findField_type, findField_value, findField_created,
        Credential.setString, Credential.zero, saveError, hx]
  | obj kvs =>
    cases hx : (JSON.obj kvs).rangeError <;>
      simp [Unmarshal, Version.envelope, Version.credential, decodeMember, findField_id,
        findField_name, findField_type, findField_value, findField_created,
        Credential.setString, Credential.zero, saveError, hx]

theorem storeTransport_Do (base : String) (s : Store) (credential : Credential)
    (value : JSON) (mode : OverwriteMode) (perms : List Permission) :
    (storeTransport base).Do
        (setRequest base (.obj (reqMembers credential value mode perms))) s
      = (match s.resolve mode credential.Name ⟨credential.Type_, value⟩ with
        | some r => (.ok ⟨200, .doc r.1.envelope⟩, r.2)
        | none =>
          (.ok ⟨400, .doc (.obj [("error", .str "the credential type cannot be modified")])⟩,
           s)) := by
  simp [storeTransport, setRequest, JSON.getStr, JSON.get, reqMembers, ofWire_wire]

/-- The client against the store: `Set` returns the version the resolver returns, as
the client decodes it, and leaves the store as the resolver leaves it. -/
theorem Set_store (parseURL : String → Option Error) (base : String) (s : Store)
    (credential : Credential) (value : JSON) (mode : OverwriteMode)
    (perms : List Permission) (r : Version × Store) (hv : credential.Value = .doc value)
    (hu : parseURL (base ++ "/api/v1/data") = none)
    (hr : s.resolve mode credential.Name ⟨credential.Type_, value⟩ = some r) :
    (New base (storeTransport base)).Set parseURL credential mode perms s
      = ⟨r.1.credential, r.1.value.rangeError, New base (storeTransport base), r.2⟩ := by
  have hd := storeTransport_Do base s credential value mode perms
  rw [hr] at hd
  rw [Set_of_response parseURL (New base (storeTransport base)) credential mode perms s _
    _ _ (marshalReqBody_of_doc credential value mode perms hv) hu hd]
  simp [Decode, Unmarshal_envelope]

/-- The client against a store that refuses the version: the status 400 is not looked
at, and the error document decodes to the zero credential without an error. -/
theorem Set_store_refused (parseURL : String → Option Error) (base : String) (s : Store)
    (credential : Credential) (value : JSON) (mode : OverwriteMode)
    (perms : List Permission) (hv : credential.Value = .doc value)
    (hu : parseURL (base ++ "/api/v1/data") = none)
    (hr : s.resolve mode credential.Name ⟨credential.Type_, value⟩ = none) :
    (New base (storeTransport base)).Set parseURL credential mode perms s
      = ⟨Credential.zero, none, New base (storeTransport base), s⟩ := by
  have hd := storeTransport_Do base s credential value mode perms
  rw [hr] at hd
  rw [Set_of_response parseURL (New base (storeTransport base)) credential mode perms s _
    _ _ (marshalReqBody_of_doc credential value mode perms hv) hu hd]
  have : findField "error" = none := by decide
  simp [Decode, Unmarshal, decodeMember, this]

theorem freshId_length (s : Store) :
    s.freshId.length = (s.versions.map (fun v => v.id.length)).sum + 1 := by
  show (List.replicate ((s.versions.map (fun v => v.id.length)).sum + 1) 'v').length = _
  exact List.length_replicate _ _

theorem freshId_ne (s : Store) (v : Version) (hv : v ∈ s.versions) : s.freshId ≠ v.id := by
  intro h
  have h1 := freshId_length s
  rw [h] at h1
  have h2 : v.id.length ≤ (s.versions.map (fun v => v.id.length)).sum :=
    List.single_le_sum (by intro x _; exact Nat.zero_le x) _
      (List.mem_map_of_mem (fun v => v.id.length) hv)
  omega

theorem latest_mem (s : Store) (name : String) (v : Version)
    (h : s.latest name = some v) : v ∈ s.versions :=
  List.mem_of_find?_eq_some h

theorem latest_name (s : Store) (name : String) (v : Version)
    (h : s.latest name = some v) : v.name = name := by
  have := List.find?_some h
  simpa using this

theorem latest_add (s : Store) (name : String) (p : TypedValue) :
    (s.add name p).2.latest name = some (s.add name p).1 := by
  simp [Store.latest, Store.add]

theorem add_ne_self (s : Store) (name : String) (p : TypedValue) :
    (s.add name p).2 ≠ s := by
  intro h
  have h1 : (s.add name p).2.versions = s.versions := by rw [h]
  exact List.cons_ne_self _ _ h1

theorem same_refl (p : TypedValue) : p.same p := ⟨rfl, rfl⟩

/-- What `create` gives is the store with one more version, when it gives one. -/
theorem create_eq_add (s : Store) (name : String) (p : TypedValue) (r : Version × Store)
    (h : s.create name p = some r) : r = s.add name p := by
  unfold Store.create at h
  split at h
  · split at h
    · exact (Option.some.inj h).symm
    · exact absurd h (by simp)
  · exact (Option.some.inj h).symm

theorem resolve_again_add (s : Store) (name : String) (p : TypedValue) :
    (s.add name p).2.resolve .Converge name p = some (s.add name p) := by
  have hb : p.beq (s.add name p).1.typedValue = true :=
    (TypedValue.beq_iff _ _).2 ⟨rfl, rfl⟩
  simp only [Store.resolve, latest_add, hb, if_true]

/-- `Converge` made a second time gives what it gave the first time. -/
theorem resolve_converge_twice (s : Store) (name : String) (p : TypedValue)
    (r : Version × Store) (hr : s.resolve .Converge name p = some r) :
    r.2.resolve .Converge name p = some r := by
  cases hl : s.latest name with
  | none =>
    have h1 : s.create name p = some r := by
      simpa [Store.resolve, hl] using hr
    rw [create_eq_add s name p r h1]
    exact resolve_again_add s name p
  | some v =>
    by_cases hb : p.beq v.typedValue = true
    · have h1 : r = (v, s) := by
        have : some (v, s) = some r := by simpa [Store.resolve, hl, hb] using hr
        exact (Option.some.inj this).symm
      rw [h1]
      simp [Store.resolve, hl, hb]
    · have h1 : s.create name p = some r := by
        simpa [Store.resolve, hl, hb] using hr
      rw [create_eq_add s name p r h1]
      exact resolve_again_add s name p

/-- The resolver keeps the rule of section 3: when all versions of a name share one
type before, they do after. -/
theorem resolve_wellTyped (s : Store) (mode : OverwriteMode) (name : String)
    (p : TypedValue) (r : Version × Store) (hw : s.wellTyped)
    (hr : s.resolve mode name p = some r) : r.2.wellTyped := by
  have hadd : ∀ r', s.create name p = some r' → r'.2.wellTyped := by
    intro r' hc
    have hnew : ∀ w ∈ s.versions, w.name = name → w.type = p.tag := by
      intro w hwm hwn
      unfold Store.create at hc
      cases hl : s.latest name with
      | none =>
        have := List.find?_eq_none.1 hl w hwm
        simp [hwn] at this
      | some v =>
        rw [hl] at hc
        simp only at hc
        split at hc
        · rename_i ht
          rw [← ht]
          exact hw w hwm v (latest_mem s name v hl) (by rw [hwn, latest_name s name v hl])
        · exact absurd hc (by simp)
    rw [create_eq_add s name p r' hc]
    intro a ha b hb hab
    simp only [Store.add, List.mem_cons] at ha hb
    rcases ha with rfl | ha <;> rcases hb with rfl | hb
    · rfl
    · exact (hnew b hb hab.symm).symm
    · exact hnew a ha hab
    · exact hw a ha b hb hab
  cases mode with
  | Overwrite => exact hadd r (by simpa [Store.resolve] using hr)
  | NoOverwrite =>
    cases hl : s.latest name with
    | none => exact hadd r (by simpa [Store.resolve, hl] using hr)
    | some v =>
      have : some (v, s) = some r := by simpa [Store.resolve, hl] using hr
      rw [← Option.some.inj this]
      exact hw
  | Converge =>
    cases hl : s.latest name with
    | none => exact hadd r (by simpa [Store.resolve, hl] using hr)
    | some v =>
      by_cases hb : p.beq v.typedValue = true
      · have : some (v, s) = some r := by simpa [Store.resolve, hl, hb] using hr
        rw [← Option.some.inj this]
        exact hw
      · exact hadd r (by simpa [Store.resolve, hl, hb] using hr)

/-- Counterexample to C2 as stated: the most recent version under `/sample-number` has
the value 2^53 + 1, and `Set` with `NoOverwrite` returns a credential whose value is
2^53, the float64 `encoding/json` decodes that number to, not the value of the
version. -/
theorem Set_NoOverwrite_rounds_value :
    numberStore.latest "/sample-number" = some numberVersion ∧
    ((New "https://credhub.example" (storeTransport "https://credhub.example")).Set parseAny
      ⟨"", "/sample-number", "json", .doc (.num 1), ""⟩ .NoOverwrite [] numberStore).cred.ID
      = numberVersion.id ∧
    ((New "https://credhub.example" (storeTransport "https://credhub.example")).Set parseAny
      ⟨"", "/sample-number", "json", .doc (.num 1), ""⟩ .NoOverwrite [] numberStore).cred.Value
      = .doc (.num 9007199254740992) ∧
    ((New "https://credhub.example" (storeTransport "https://credhub.example")).Set parseAny
      ⟨"", "/sample-number", "json", .doc (.num 1), ""⟩ .NoOverwrite [] numberStore).cred.Value
      ≠ .doc numberVersion.value := by
  refine ⟨by decide, by decide, by decide, by decide⟩

/-- C2, amended: against the store of section 4.2, when the name of the proposed
credential has a most recent version `v`, `Set` with `NoOverwrite` leaves the store as
it was and returns a credential with the id and the type of `v`, whose value is the
Go value `encoding/json` decodes the value of `v` to, with the range error of that
value as error. When every number of the value of `v` is a float64, the error is nil
and the value returned is the value of `v` as a tree (objects as maps: members by
key, the last of the members with one key); it is the proposed value only if that
tree is the proposed document. -/
theorem Set_NoOverwrite_returns_existing (parseURL : String → Option Error) (base : String)
    (s : Store) (credential : Credential) (perms : List Permission) (value : JSON)
    (v : Version) (hv : credential.Value = .doc value)
    (hu : parseURL (base ++ "/api/v1/data") = none)
    (hl : s.latest credential.Name = some v) :
    ((New base (storeTransport base)).Set parseURL credential .NoOverwrite perms s).cred.ID
      = v.id ∧
    ((New base (storeTransport base)).Set parseURL credential .NoOverwrite perms s).cred.Type_
      = v.type ∧
    ((New base (storeTransport base)).Set parseURL credential .NoOverwrite perms s).world
      = s ∧
    ((New base (storeTransport base)).Set parseURL credential .NoOverwrite perms s).cred.Value
      = .doc v.value.toInterface ∧
    ((New base (storeTransport base)).Set parseURL credential .NoOverwrite perms s).err
      = v.value.rangeError ∧
    (v.value.exact = true →
      ((New base (storeTransport base)).Set parseURL credential .NoOverwrite perms s).err
        = none ∧
      ((New base (storeTransport base)).Set parseURL credential .NoOverwrite perms s).cred.Value
        = .doc v.value.canon ∧
      (((New base (storeTransport base)).Set parseURL credential .NoOverwrite
          perms s).cred.Value = credential.Value ↔ v.value.canon = value)) := by
  have hr : s.resolve .NoOverwrite credential.Name ⟨credential.Type_, value⟩
      = some (v, s) := by
    simp [Store.resolve, hl]
  rw [Set_store parseURL base s credential value .NoOverwrite perms (v, s) hv hu hr, hv]
  refine ⟨rfl, rfl, rfl, rfl, rfl, ?_⟩
  intro hx
  refine ⟨JSON.rangeError_of_exact v.value hx, ?_, ?_⟩
  · simp [Version.credential, JSON.toInterface_eq_canon v.value hx]
  · simp [Version.credential, JSON.toInterface_eq_canon v.value hx]

theorem Set_NoOverwrite_returns_existing_witness :
    exampleCredential.Value = .doc exampleValue ∧
    parseAny ("https://credhub.example" ++ "/api/v1/data") = none ∧
    exampleStore.latest exampleCredential.Name = some exampleVersion ∧
    exampleVersion.value.exact = true ∧
    ((New "https://credhub.example" (storeTransport "https://credhub.example")).Set parseAny
      exampleCredential .NoOverwrite [] exampleStore).cred.ID = exampleVersion.id ∧
    ((New "https://credhub.example" (storeTransport "https://credhub.example")).Set parseAny
      exampleCredential .NoOverwrite [] exampleStore).err = none ∧
    ((New "https://credhub.example" (storeTransport "https://credhub.example")).Set parseAny
      exampleCredential .NoOverwrite [] exampleStore).cred.Value
      = .doc exampleVersion.value.canon :=
  ⟨rfl, rfl, by decide, by decide,
    (Set_NoOverwrite_returns_existing parseAny "https://credhub.example" exampleStore
      exampleCredential [] exampleValue exampleVersion rfl rfl (by decide)).1,
    ((Set_NoOverwrite_returns_existing parseAny "https://credhub.example" exampleStore
      exampleCredential [] exampleValue exampleVersion rfl rfl (by decide)).2.2.2.2.2
      (by decide)).1,
    ((Set_NoOverwrite_returns_existing parseAny "https://credhub.example" exampleStore
      exampleCredential [] exampleValue exampleVersion rfl rfl (by decide)).2.2.2.2.2
      (by decide)).2.1⟩

theorem resolve_converge_of_latest (s : Store) (name tag : String) (value : JSON)
    (v : Version) (hl : s.latest name = some v) (ht : tag = v.type) :
    s.resolve .Converge name ⟨tag, value⟩
      = if value.canon = v.value.canon then some (v, s)
        else some (s.add name ⟨tag, value⟩) := by
  subst ht
  by_cases hP : value.canon = v.value.canon
  · have hb : (TypedValue.mk v.type value).beq v.typedValue = true :=
      (TypedValue.beq_iff _ _).2 ⟨rfl, hP⟩
    simp [Store.resolve, hl, hb, hP]
  · have hb : (TypedValue.mk v.type value).beq v.typedValue = false := by
      cases h : (TypedValue.mk v.type value).beq v.typedValue with
      | false => rfl
      | true => exact absurd ((TypedValue.beq_iff _ _).1 h).2 hP
    simp [Store.resolve, hl, hb, hP, Store.create]

/-- A proposal of another type than that of the name is refused by the store
whatever its value; `Set`, which does not look at the status, then returns the zero
credential without an error, and the store is as it was. -/
theorem Set_Converge_other_type (parseURL : String → Option Error) (base : String)
    (s : Store) (credential : Credential) (perms : List Permission) (value : JSON)
    (v : Version) (hv : credential.Value = .doc value)
    (hu : parseURL (base ++ "/api/v1/data") = none)
    (hl : s.latest credential.Name = some v)
    (ht : credential.Type_ ≠ v.type) :
    (New base (storeTransport base)).Set parseURL credential .Converge perms s
      = ⟨Credential.zero, none, New base (storeTransport base), s⟩ := by
  have hb : (TypedValue.mk credential.Type_ value).beq v.typedValue = false := by
    cases h : (TypedValue.mk credential.Type_ value).beq v.typedValue with
    | false => rfl
    | true => exact absurd ((TypedValue.beq_iff _ _).1 h).1 ht
  have hr : s.resolve .Converge credential.Name ⟨credential.Type_, value⟩ = none := by
    simp [Store.resolve, hl, hb, Store.create, Ne.symm ht]
  exact Set_store_refused parseURL base s credential value .Converge perms hv hu hr

/-- C3: against the store of section 4.2, when the name of the proposed credential has
a most recent version `v` and the proposal is of the type of that name, `Set` with
`Converge` returns a credential with the id of `v` exactly when the proposed value and
the value of `v` are the same tree (field by field, whatever the order of the
members): the same value gives the id of `v` and leaves the store as it was, another
value gives another id. The error is the range error of the value returned. The same
`Set` made a second time returns the id the first one returned and leaves the store
as the first one left it. -/
theorem Set_Converge_existing (parseURL : String → Option Error) (base : String)
    (s : Store) (credential : Credential) (perms : List Permission) (value : JSON)
    (v : Version) (hv : credential.Value = .doc value)
    (hu : parseURL (base ++ "/api/v1/data") = none)
    (hl : s.latest credential.Name = some v)
    (ht : credential.Type_ = v.type) :
    (((New base (storeTransport base)).Set parseURL credential .Converge perms s).cred.ID
      = v.id ↔ value.canon = v.value.canon) ∧
    (((New base (storeTransport base)).Set parseURL credential .Converge perms s).world
      = s ↔ value.canon = v.value.canon) ∧
    ((New base (storeTransport base)).Set parseURL credential .Converge perms s).err
      = (if value.canon = v.value.canon then v.value.rangeError else value.rangeError) ∧
    ((New base (storeTransport base)).Set parseURL credential .Converge perms
      ((New base (storeTransport base)).Set parseURL credential .Converge perms s).world).cred.ID
      = ((New base (storeTransport base)).Set parseURL credential .Converge perms s).cred.ID ∧
    ((New base (storeTransport base)).Set parseURL credential .Converge perms
      ((New base (storeTransport base)).Set parseURL credential .Converge perms s).world).world
      = ((New base (storeTransport base)).Set parseURL credential .Converge perms s).world
    := by
  have hres := resolve_converge_of_latest s credential.Name credential.Type_ value v hl ht
  by_cases hP : value.canon = v.value.canon
  · rw [if_pos hP] at hres
    have h2 := resolve_converge_twice s credential.Name _ _ hres
    rw [Set_store parseURL base s credential value .Converge perms (v, s) hv hu hres]
    simp only []
    rw [Set_store parseURL base s credential value .Converge perms (v, s) hv hu hres]
    simp only [if_pos hP]
    refine ⟨⟨fun _ => hP, fun _ => ?_⟩, ⟨fun _ => hP, fun _ => ?_⟩, ?_, ?_, ?_⟩ <;>
      first | rfl | trivial
  · rw [if_neg hP] at hres
    have h2 := resolve_converge_twice s credential.Name _ _ hres
    rw [Set_store parseURL base s credential value .Converge perms _ hv hu hres]
    simp only []
    rw [Set_store parseURL base _ credential value .Converge perms _ hv hu h2]
    simp only [if_neg hP]
    refine ⟨⟨fun hid => ?_, fun h => absurd h hP⟩, ⟨fun hw => ?_, fun h => absurd h hP⟩,
      ?_, ?_, ?_⟩
    · exact absurd hid (freshId_ne s v (latest_mem s _ v hl))
    · exact absurd hw (add_ne_self s _ _)
    all_goals first | rfl | trivial

theorem Set_Converge_existing_witness :
    (⟨"", "/sample-set", "user",
        .doc (.obj [("password", .str "old"), ("password_hash", .str "somestring"),
          ("username", .str "me")]), ""⟩ : Credential).Value
      = .doc (.obj [("password", .str "old"), ("password_hash", .str "somestring"),
          ("username", .str "me")]) ∧
    parseAny ("https://credhub.example" ++ "/api/v1/data") = none ∧
    exampleStore.latest "/sample-set" = some exampleVersion ∧
    "user" = exampleVersion.type ∧
    ((New "https://credhub.example" (storeTransport "https://credhub.example")).Set parseAny
      ⟨"", "/sample-set", "user",
        .doc (.obj [("password", .str "old"), ("password_hash", .str "somestring"),
          ("username", .str "me")]), ""⟩ .Converge [] exampleStore).cred.ID
      = exampleVersion.id ∧
    ¬ ((New "https://credhub.example" (storeTransport "https://credhub.example")).Set parseAny
      exampleCredential .Converge [] exampleStore).cred.ID = exampleVersion.id :=
  ⟨rfl, rfl, by decide, rfl,
    (Set_Converge_existing parseAny "https://credhub.example" exampleStore
      ⟨"", "/sample-set", "user",
        .doc (.obj [("password", .str "old"), ("password_hash", .str "somestring"),
          ("username", .str "me")]), ""⟩ []
      (.obj [("password", .str "old"), ("password_hash", .str "somestring"),
        ("username", .str "me")])
      exampleVersion rfl rfl (by decide) rfl).1.2 (by decide),
    fun h => absurd
      ((Set_Converge_existing parseAny "https://credhub.example" exampleStore
        exampleCredential [] exampleValue exampleVersion rfl rfl (by decide) rfl).1.1 h)
      (by decide)⟩

end Credhub
